import Mathlib

set_option maxHeartbeats 1000000

/-!
Verification development for the Claude Code VS Code extension core:
the subprocess streaming transport (ClaudeStreamingClient), the transcript
reader (ClaudeSessionManager) and the transport-selecting orchestrator
(ClaudeCodeManager).  JavaScript strings are modelled as Lean strings
(lists of characters), JSON values as an inductive AST, timestamps as
epoch-millisecond integers, and the event-callback interface as explicit
lists of sink calls.
-/

/-! ## Character and string helpers (JavaScript string primitives) -/

/-- Whitespace characters recognised by JavaScript trim / JSON parsing
    that occur in practice: space, tab, newline, carriage return,
    vertical tab, form feed. -/
def isWsChar (c : Char) : Bool :=
  c = ' ' || c = '\t' || c = '\n' || c = '\r' || c = Char.ofNat 11 || c = Char.ofNat 12

/-- Drop leading whitespace from a character list. -/
def dropWsLeft : List Char → List Char
  | [] => []
  | c :: cs => if isWsChar c then dropWsLeft cs else c :: cs

/-- Trim whitespace from both ends of a character list. -/
def trimChars (l : List Char) : List Char :=
  ((dropWsLeft ((dropWsLeft l).reverse)).reverse)

/-- JavaScript String.prototype.trim. -/
def jsTrim (s : String) : String := ⟨trimChars s.data⟩

/-- JavaScript String.prototype.toLowerCase (ASCII-adequate). -/
def lowerStr (s : String) : String := ⟨s.data.map Char.toLower⟩

/-- Whether `sub` occurs contiguously inside `l`. -/
def containsSubChars : List Char → List Char → Bool
  | [], sub => sub.isEmpty
  | c :: tl, sub => sub.isPrefixOf (c :: tl) || containsSubChars tl sub

/-- JavaScript String.prototype.includes. -/
def strIncludes (s sub : String) : Bool := containsSubChars s.data sub.data

/-- JavaScript String.prototype.startsWith. -/
def strStartsWith (s p : String) : Bool := p.data.isPrefixOf s.data

/-- Split a character stream at newline characters with JavaScript
    split("\n") semantics, returning the complete lines (everything up to
    the last newline) and the trailing, possibly incomplete fragment
    separately.  This is exactly the buffer-management step
    `lines = buffer.split("\n"); buffer = lines.pop()`. -/
def splitNl : List Char → List (List Char) × List Char
  | [] => ([], [])
  | c :: cs =>
    let r := splitNl cs
    if c = '\n' then ([] :: r.1, r.2)
    else
      match r.1 with
      | [] => ([], c :: r.2)
      | l :: ls => ((c :: l) :: ls, r.2)

/-- JavaScript split on an arbitrary separator character (full split, the
    final fragment included as the last element; never empty). -/
def splitOnChar (sep : Char) : List Char → List (List Char)
  | [] => [[]]
  | c :: cs =>
    let r := splitOnChar sep cs
    if c = sep then [] :: r
    else
      match r with
      | [] => [[c]]
      | l :: ls => (c :: l) :: ls

/-- JavaScript s.split(".").pop(): the substring after the last dot, the
    whole string when no dot occurs. -/
def lastDotComponent (s : String) : String :=
  ⟨((splitOnChar '.' s.data).getLast?).getD []⟩

/-- Concatenation of a chunk list into the single equivalent chunk. -/
def concatStrings : List String → String
  | [] => ""
  | [c] => c
  | c :: cs => c ++ concatStrings cs

/-! ## JSON values

JSON.parse / JSON.stringify are JavaScript builtins at the program's
boundary; they are modelled by an executable parser and printer over this
AST.  Numbers are modelled as integers (no stream line relevant to the
transport carries a fractional constant). -/

inductive Json where
  | null : Json
  | bool (b : Bool) : Json
  | num (n : Int) : Json
  | str (s : String) : Json
  | arr (items : List Json) : Json
  | obj (fields : List (String × Json)) : Json

/-- Member access data.k: none models JavaScript undefined (missing key
    or access on a non-object). -/
def Json.field : Json → String → Option Json
  | .obj fs, k => fs.lookup k
  | _, _ => none

/-- JavaScript truthiness of a JSON value. -/
def Json.truthy : Json → Bool
  | .null => false
  | .bool b => b
  | .num n => !(n == 0)
  | .str s => !(s == "")
  | .arr _ => true
  | .obj _ => true

/-- Truthiness of a possibly-undefined value. -/
def jsTruthy : Option Json → Bool
  | none => false
  | some j => j.truthy

/-- JavaScript a || b on possibly-undefined values: a when truthy, else b. -/
def jsOr (a b : Option Json) : Option Json :=
  if jsTruthy a then a else b

/-- Strict comparison data.k === "v" for a string field. -/
def Json.isStrField (j : Json) (k v : String) : Bool :=
  match j.field k with
  | some (.str s) => s == v
  | _ => false

mutual
/-- JavaScript String() conversion, as performed by template literals:
    arrays join their elements with commas, objects print as
    [object Object]. -/
def jsStringOf : Json → String
  | .null => "null"
  | .bool b => if b then "true" else "false"
  | .num n => toString n
  | .str s => s
  | .arr items => jsStringOfList items
  | .obj _ => "[object Object]"

/-- Comma-joined String() conversion of array elements. -/
def jsStringOfList : List Json → String
  | [] => ""
  | [x] => jsStringOf x
  | x :: y :: xs => jsStringOf x ++ "," ++ jsStringOfList (y :: xs)
end

/-- Template interpolation of a possibly-undefined value
    (undefined prints as "undefined"). -/
def tmpl : Option Json → String
  | none => "undefined"
  | some j => jsStringOf j

/-- Template interpolation of the nullable numeric exit code. -/
def tmplCode : Option Int → String
  | none => "null"
  | some n => toString n

def spacesN (n : Nat) : String := ⟨List.replicate n ' '⟩

/-- Escape one character for a JSON string literal. -/
def jsonEscapeChar (c : Char) : String :=
  if c = '"' then "\\\"" else
  if c = '\\' then "\\\\" else
  if c = '\n' then "\\n" else
  if c = '\t' then "\\t" else
  if c = '\r' then "\\r" else
  String.singleton c

def jsonQuote (s : String) : String :=
  "\"" ++ String.join (s.data.map jsonEscapeChar) ++ "\""

mutual
/-- JSON.stringify(v, null, 2): pretty printing with two-space indent,
    at the given current indent level. -/
def jsonStringify (ind : Nat) : Json → String
  | .null => "null"
  | .bool b => if b then "true" else "false"
  | .num n => toString n
  | .str s => jsonQuote s
  | .arr [] => "[]"
  | .arr (x :: xs) =>
    "[\n" ++ jsonStringifyItems (ind + 2) (x :: xs) ++ "\n" ++ spacesN ind ++ "]"
  | .obj [] => "\x7b\x7d"
  | .obj (f :: fs) =>
    "\x7b\n" ++ jsonStringifyFields (ind + 2) (f :: fs) ++ "\n" ++ spacesN ind ++ "\x7d"

/-- Indented, comma-separated array items. -/
def jsonStringifyItems (ind : Nat) : List Json → String
  | [] => ""
  | [x] => spacesN ind ++ jsonStringify ind x
  | x :: y :: xs =>
    spacesN ind ++ jsonStringify ind x ++ ",\n" ++ jsonStringifyItems ind (y :: xs)

/-- Indented, comma-separated object members. -/
def jsonStringifyFields (ind : Nat) : List (String × Json) → String
  | [] => ""
  | [(k, v)] => spacesN ind ++ jsonQuote k ++ ": " ++ jsonStringify ind v
  | (k, v) :: f :: fs =>
    spacesN ind ++ jsonQuote k ++ ": " ++ jsonStringify ind v ++ ",\n" ++
      jsonStringifyFields ind (f :: fs)
end

/-! ### JSON parsing (the JSON.parse boundary) -/

def isDigitChar (c : Char) : Bool := '0' ≤ c && c ≤ '9'

/-- Consume a digit run, accumulating its value. -/
def digitsToNat (acc : Nat) : List Char → Nat × List Char
  | [] => (acc, [])
  | c :: cs =>
    if isDigitChar c then digitsToNat (acc * 10 + (c.toNat - 48)) cs
    else (acc, c :: cs)

def hexVal (c : Char) : Option Nat :=
  if isDigitChar c then some (c.toNat - 48)
  else if 'a' ≤ c && c ≤ 'f' then some (c.toNat - 87)
  else if 'A' ≤ c && c ≤ 'F' then some (c.toNat - 55)
  else none

/-- Scan the body of a JSON string literal after the opening quote,
    handling escapes; none models a SyntaxError. -/
def scanJsonStr : List Char → Option (List Char × List Char)
  | [] => none
  | '"' :: rest => some ([], rest)
  | '\\' :: 'u' :: h1 :: h2 :: h3 :: h4 :: rest => do
    let v1 ← hexVal h1
    let v2 ← hexVal h2
    let v3 ← hexVal h3
    let v4 ← hexVal h4
    let (l, r) ← scanJsonStr rest
    pure (Char.ofNat (((v1 * 16 + v2) * 16 + v3) * 16 + v4) :: l, r)
  | '\\' :: e :: rest => do
    let c ← (if e = '"' then some '"' else
             if e = '\\' then some '\\' else
             if e = '/' then some '/' else
             if e = 'n' then some '\n' else
             if e = 't' then some '\t' else
             if e = 'r' then some '\r' else
             if e = 'b' then some (Char.ofNat 8) else
             if e = 'f' then some (Char.ofNat 12) else none)
    let (l, r) ← scanJsonStr rest
    pure (c :: l, r)
  | c :: rest =>
    if c.toNat < 32 then none
    else do
      let (l, r) ← scanJsonStr rest
      pure (c :: l, r)

def lbraceChar : Char := Char.ofNat 123
def rbraceChar : Char := Char.ofNat 125

mutual
/-- Parse one JSON value (fuel-bounded recursive descent). -/
def parseJsonValue (fuel : Nat) (cs : List Char) : Option (Json × List Char) :=
  match fuel with
  | 0 => none
  | fuel + 1 =>
    match cs with
    | [] => none
    | c :: rest =>
      if c = lbraceChar then
        match dropWsLeft rest with
        | d :: rest2 =>
          if d = rbraceChar then some (.obj [], rest2)
          else parseJsonMembers fuel (d :: rest2)
        | [] => none
      else if c = '[' then
        match dropWsLeft rest with
        | d :: rest2 =>
          if d = ']' then some (.arr [], rest2)
          else parseJsonItems fuel (d :: rest2)
        | [] => none
      else if c = '"' then
        match scanJsonStr rest with
        | some (l, r) => some (.str ⟨l⟩, r)
        | none => none
      else if c = 't' then
        if ['r', 'u', 'e'].isPrefixOf rest then some (.bool true, rest.drop 3) else none
      else if c = 'f' then
        if ['a', 'l', 's', 'e'].isPrefixOf rest then some (.bool false, rest.drop 4) else none
      else if c = 'n' then
        if ['u', 'l', 'l'].isPrefixOf rest then some (.null, rest.drop 3) else none
      else if c = '-' then
        match rest with
        | d :: rest2 =>
          if isDigitChar d then
            let (v, r) := digitsToNat (d.toNat - 48) rest2
            some (.num (-(Int.ofNat v)), r)
          else none
        | [] => none
      else if isDigitChar c then
        let (v, r) := digitsToNat (c.toNat - 48) rest
        some (.num (Int.ofNat v), r)
      else none

/-- Parse the members of an object after its opening brace (at least one). -/
def parseJsonMembers (fuel : Nat) (cs : List Char) : Option (Json × List Char) :=
  match fuel with
  | 0 => none
  | fuel + 1 =>
    match cs with
    | '"' :: rest => do
      let (k, r1) ← scanJsonStr rest
      match dropWsLeft r1 with
      | ':' :: r2 => do
        let (v, r3) ← parseJsonValue fuel (dropWsLeft r2)
        match dropWsLeft r3 with
        | ',' :: r4 => do
          let (tail, r5) ← parseJsonMembers fuel (dropWsLeft r4)
          match tail with
          | .obj fs => pure (.obj ((⟨k⟩, v) :: fs), r5)
          | _ => none
        | d :: r4 =>
          if d = rbraceChar then pure (.obj [(⟨k⟩, v)], r4) else none
        | [] => none
      | _ => none
    | _ => none

/-- Parse the items of an array after its opening bracket (at least one). -/
def parseJsonItems (fuel : Nat) (cs : List Char) : Option (Json × List Char) :=
  match fuel with
  | 0 => none
  | fuel + 1 => do
    let (v, r1) ← parseJsonValue fuel cs
    match dropWsLeft r1 with
    | ',' :: r2 => do
      let (tail, r3) ← parseJsonItems fuel (dropWsLeft r2)
      match tail with
      | .arr xs => pure (.arr (v :: xs), r3)
      | _ => none
    | ']' :: r2 => pure (.arr [v], r2)
    | _ => none
end

/-- JSON.parse on one line: a single JSON value surrounded by optional
    whitespace; none models a thrown SyntaxError (the catch branch). -/
def jsonParse (s : String) : Option Json :=
  match parseJsonValue (s.data.length + 1) (dropWsLeft s.data) with
  | some (j, rest) => if (dropWsLeft rest).isEmpty then some j else none
  | none => none

/-! ## Subprocess transport: ClaudeStreamingClient -/

/-- One callback invocation observed by the streaming sink
    (the StreamingCallbacks interface). -/
inductive SinkCall where
  | onMessage (mtype : String) (content : String) : SinkCall
  | onComplete (content : String) : SinkCall
  | onError (msg : String) : SinkCall
deriving DecidableEq, Repr

/-- The fixed thinking-indicator phrase list of
    ClaudeStreamingClient.isThinkingContent. -/
def thinkingIndicators : List String :=
  ["I need to", "Let me", "First, I", "I should", "I\x27ll need to",
   "Looking at", "Based on", "To solve this", "I can see",
   "analyzing", "considering", "thinking", "examining",
   "planning", "preparing", "organizing", "structuring",
   "preciso", "vou", "primeiro", "analisando", "pensando"]

/-- ClaudeStreamingClient.isThinkingContent: heuristic classification of a
    line or content block as thinking output. -/
def isThinkingContent (content : String) : Bool :=
  (thinkingIndicators.any fun ind => strIncludes (lowerStr content) (lowerStr ind))
    || strStartsWith content "🤔" || strIncludes content "..."

/-- The file-extension → language map of the Write tool-use branch. -/
def langMap : List (String × String) :=
  [("js", "javascript"), ("ts", "typescript"), ("py", "python"),
   ("cs", "csharp"), ("java", "java"), ("cpp", "cpp"), ("c", "c"),
   ("html", "html"), ("css", "css"), ("json", "json"), ("xml", "xml")]

/-- The tool_use/Write content block branch of processStreamingLine:
    emits a tool_use event describing the written file and feeds the file
    content to the collector as text. -/
def processWriteBlock (block : Json) : List SinkCall × List (String × String) :=
  let fpVal := (block.field "input").bind (fun i => i.field "file_path")
  let filePath := if jsTruthy fpVal then tmpl fpVal else ""
  let fcVal := (block.field "input").bind (fun i => i.field "content")
  let fileContent := if jsTruthy fcVal then tmpl fcVal else ""
  let fileExt := lowerStr (lastDotComponent filePath)
  let detectedLang := (langMap.lookup fileExt).getD "code"
  ([.onMessage "tool_use"
      ("Creating file: " ++ filePath ++ "\n```" ++ detectedLang ++ "\n" ++ fileContent ++ "\n```")],
   [(fileContent, "text")])

/-- The content-block loop of the assistant branch: accumulated text
    content, tool_use events emitted during the loop, and collector calls
    made during the loop, in order. -/
def assistantBlocks : List Json → String × List SinkCall × List (String × String)
  | [] => ("", [], [])
  | b :: bs =>
    let r := assistantBlocks bs
    if b.isStrField "type" "text" then
      (tmpl (b.field "text") ++ r.1, r.2.1, r.2.2)
    else if b.isStrField "type" "tool_use" && b.isStrField "name" "Write" then
      let w := processWriteBlock b
      (r.1, w.1 ++ r.2.1, w.2 ++ r.2.2)
    else
      (r.1, r.2.1, r.2.2)

/-- The assistant branch of processStreamingLine: extract content from the
    content blocks (or a plain string content), then emit a text/thinking
    event for the combined content when it is nonempty. -/
def processAssistant (data : Json) : List SinkCall × List (String × String) :=
  let msg := (data.field "message").getD .null
  let blockResult :=
    match msg.field "content" with
    | some (.arr bs) => assistantBlocks bs
    | some (.str s) => (s, [], [])
    | _ => ("", [], [])
  let content := blockResult.1
  if content = "" then (blockResult.2.1, blockResult.2.2)
  else
    let mtype := if isThinkingContent content then "thinking" else "text"
    (blockResult.2.1 ++ [.onMessage mtype content],
     blockResult.2.2 ++ [(content, mtype)])

/-- ClaudeStreamingClient.processStreamingLine on one complete (already
    trimmed) line: the onMessage/onError calls it makes, in order, and the
    (content, type) pairs it passes to the content collector. -/
def processStreamingLine (line : String) : List SinkCall × List (String × String) :=
  match jsonParse line with
  | some data =>
    if data.isStrField "type" "system" && data.isStrField "subtype" "init" then
      ([.onMessage "progress" "Initializing Claude session..."], [])
    else if data.isStrField "type" "assistant" && jsTruthy (data.field "message") then
      processAssistant data
    else if data.isStrField "type" "result" then
      ([.onMessage "progress" ("Completed in " ++ tmpl (data.field "duration_ms") ++ "ms")], [])
    else if data.isStrField "type" "error" then
      ([.onError (tmpl (jsOr (data.field "message")
          (jsOr ((data.field "error").bind (fun e => e.field "message"))
                (some (.str "Unknown error")))))], [])
    else
      let content := jsOr (data.field "content")
        (jsOr (data.field "text") (jsOr (data.field "message") (some (.str line))))
      if jsTruthy content then
        ([.onMessage "text" (tmpl content)], [(tmpl content, "text")])
      else ([], [])
  | none =>
    if jsTrim line = "" then ([], [])
    else
      let mtype := if isThinkingContent line then "thinking" else "text"
      ([.onMessage mtype (line ++ "\n")], [(line ++ "\n", mtype)])

/-! ### The streamFromCLI request state machine -/

/-- The mutable state of one streamFromCLI request: the line buffer, the
    accumulated text response, whether any stdout data arrived, whether the
    close event already fired (which clears the timeout), and whether the
    returned promise has already settled. -/
structure StreamState where
  buffer : List Char
  fullResponse : String
  hasReceivedData : Bool
  closed : Bool
  settled : Bool
deriving Repr, DecidableEq

def initStreamState : StreamState :=
  { buffer := [], fullResponse := "", hasReceivedData := false,
    closed := false, settled := false }

/-- One observed subprocess event. -/
inductive ProcEv where
  | stdout (chunk : String) : ProcEv
  | stderr (chunk : String) : ProcEv
  | close (code : Option Int) : ProcEv
  | procError (msg : String) : ProcEv
  | timeout : ProcEv

def noResponseMsg : String := "No response received from Claude CLI"
def timeoutMsg : String := "Claude CLI request timed out after 2 minutes"
def closeFailMsg (code : Option Int) : String :=
  "Claude CLI failed with code " ++ tmplCode code

/-- A failure path: the direct callbacks.onError call, followed by the
    promise rejection; on the first settlement the rejection reaches the
    catch block of sendMessageStreaming, which calls onError once more
    with the same message. -/
def settleReject (st : StreamState) (msg : String) : StreamState × List SinkCall :=
  if st.settled then (st, [.onError msg])
  else ({ st with settled := true }, [.onError msg, .onError msg])

/-- Process one complete line inside the stdout data handler: trim, skip
    when empty, run processStreamingLine, and append the text-classified
    collector content to fullResponse. -/
def applyLine (st : StreamState) (l : List Char) : StreamState × List SinkCall :=
  if jsTrim ⟨l⟩ = "" then (st, [])
  else
    let r := processStreamingLine (jsTrim ⟨l⟩)
    let add := String.join ((r.2.filter fun p => p.2 == "text").map Prod.fst)
    ({ st with fullResponse := st.fullResponse ++ add }, r.1)

def applyLines (st : StreamState) : List (List Char) → StreamState × List SinkCall
  | [] => (st, [])
  | l :: ls =>
    let r1 := applyLine st l
    let r2 := applyLines r1.1 ls
    (r2.1, r1.2 ++ r2.2)

/-- The stdout data handler from the point after its first operation, the
    per-chunk Buffer.toString() decode (stdoutStepBytes below composes the
    decode in): append the decoded chunk to the line buffer, split off
    complete lines, retain the trailing fragment, process each line. -/
def stdoutStep (st : StreamState) (chunk : String) : StreamState × List SinkCall :=
  let st1 := { st with hasReceivedData := true }
  let parts := splitNl (st1.buffer ++ chunk.data)
  applyLines { st1 with buffer := parts.2 } parts.1

/-- One event processed by the handlers of streamFromCLI, together with
    the catch block of sendMessageStreaming (which adds one onError when
    the promise first rejects). -/
def streamStep (st : StreamState) : ProcEv → StreamState × List SinkCall
  | .stdout chunk => stdoutStep st chunk
  | .stderr chunk =>
    if strIncludes (lowerStr chunk) "error" || strIncludes (lowerStr chunk) "failed" then
      (st, [.onError chunk])
    else (st, [])
  | .close code =>
    let st1 := { st with closed := true }
    if code = some 0 then
      if st1.hasReceivedData = false ∨ jsTrim st1.fullResponse = "" then
        settleReject st1 noResponseMsg
      else
        ({ st1 with settled := true }, [.onComplete st1.fullResponse])
    else
      settleReject st1 (closeFailMsg code)
  | .procError msg => settleReject st msg
  | .timeout =>
    if st.closed then (st, [])
    else settleReject st timeoutMsg

def runStreamFrom (st : StreamState) : List ProcEv → StreamState × List SinkCall
  | [] => (st, [])
  | e :: es =>
    let r1 := streamStep st e
    let r2 := runStreamFrom r1.1 es
    (r2.1, r1.2 ++ r2.2)

/-- All sink callback invocations produced by one streaming request that
    observes the given ordered subprocess events. -/
def runStream (evs : List ProcEv) : List SinkCall :=
  (runStreamFrom initStreamState evs).2

/-! ### The Buffer.toString() boundary

The data handler receives raw bytes and immediately decodes each chunk in
isolation (`const chunk = data.toString()`).  Buffer.prototype.toString is
stateless per call and follows the WHATWG UTF-8 decoder: every maximal
ill-formed subpart — in particular a multi-byte character truncated at a
chunk boundary — becomes one U+FFFD replacement character.  Bytes are
modelled as natural numbers below 256. -/

/-- The U+FFFD replacement character produced for ill-formed UTF-8. -/
def replacementChar : Char := Char.ofNat 0xFFFD

/-- Decode one UTF-8 unit starting at lead byte b with the remaining bytes
    of the chunk: the decoded character (U+FFFD for a maximal ill-formed
    subpart) and the bytes left after it. -/
def decodeOne (b : Nat) (rest : List Nat) : Char × List Nat :=
  if b < 0x80 then (Char.ofNat b, rest)
  else if 0xC2 ≤ b ∧ b ≤ 0xDF then
    match rest with
    | b1 :: rest1 =>
      if 0x80 ≤ b1 ∧ b1 ≤ 0xBF then (Char.ofNat ((b - 0xC0) * 64 + (b1 - 0x80)), rest1)
      else (replacementChar, rest)
    | [] => (replacementChar, [])
  else if 0xE0 ≤ b ∧ b ≤ 0xEF then
    match rest with
    | b1 :: rest1 =>
      if (if b = 0xE0 then 0xA0 else 0x80) ≤ b1 ∧ b1 ≤ (if b = 0xED then 0x9F else 0xBF) then
        match rest1 with
        | b2 :: rest2 =>
          if 0x80 ≤ b2 ∧ b2 ≤ 0xBF then
            (Char.ofNat ((b - 0xE0) * 4096 + (b1 - 0x80) * 64 + (b2 - 0x80)), rest2)
          else (replacementChar, rest1)
        | [] => (replacementChar, [])
      else (replacementChar, rest)
    | [] => (replacementChar, [])
  else if 0xF0 ≤ b ∧ b ≤ 0xF4 then
    match rest with
    | b1 :: rest1 =>
      if (if b = 0xF0 then 0x90 else 0x80) ≤ b1 ∧ b1 ≤ (if b = 0xF4 then 0x8F else 0xBF) then
        match rest1 with
        | b2 :: rest2 =>
          if 0x80 ≤ b2 ∧ b2 ≤ 0xBF then
            match rest2 with
            | b3 :: rest3 =>
              if 0x80 ≤ b3 ∧ b3 ≤ 0xBF then
                (Char.ofNat ((b - 0xF0) * 0x40000 + (b1 - 0x80) * 4096 +
                    (b2 - 0x80) * 64 + (b3 - 0x80)), rest3)
              else (replacementChar, rest2)
            | [] => (replacementChar, [])
          else (replacementChar, rest1)
        | [] => (replacementChar, [])
      else (replacementChar, rest)
    | [] => (replacementChar, [])
  else (replacementChar, rest)

/-- Fuel-bounded decode loop; every decodeOne step consumes at least one
    byte, so fuel equal to the byte count is always sufficient. -/
def utf8DecodeReplaceAuxF : Nat → List Nat → List Char
  | _, [] => []
  | 0, _ :: _ => []
  | fuel + 1, b :: rest =>
    (decodeOne b rest).1 :: utf8DecodeReplaceAuxF fuel (decodeOne b rest).2

def utf8DecodeReplaceAux (l : List Nat) : List Char :=
  utf8DecodeReplaceAuxF l.length l

/-- Buffer.toString() of one delivered chunk. -/
def utf8DecodeReplace (bytes : List Nat) : String := ⟨utf8DecodeReplaceAux bytes⟩

/-- The UTF-8 encoding of one character. -/
def utf8EncodeChar (c : Char) : List Nat :=
  let n := c.toNat
  if n < 0x80 then [n]
  else if n < 0x800 then [0xC0 + n / 64, 0x80 + n % 64]
  else if n < 0x10000 then [0xE0 + n / 4096, 0x80 + (n / 64) % 64, 0x80 + n % 64]
  else [0xF0 + n / 0x40000, 0x80 + (n / 4096) % 64, 0x80 + (n / 64) % 64, 0x80 + n % 64]

def utf8EncodeChars : List Char → List Nat
  | [] => []
  | c :: cs => utf8EncodeChar c ++ utf8EncodeChars cs

/-- The UTF-8 byte sequence of a string. -/
def utf8Encode (s : String) : List Nat := utf8EncodeChars s.data

/-- The stdout data handler on the raw delivered bytes: decode the chunk
    with Buffer.toString(), then buffer, split and process as stdoutStep. -/
def stdoutStepBytes (st : StreamState) (data : List Nat) : StreamState × List SinkCall :=
  stdoutStep st (utf8DecodeReplace data)

/-- Deliver a sequence of raw byte chunks to the stdout data handler. -/
def runStdoutBytes (st : StreamState) : List (List Nat) → StreamState × List SinkCall
  | [] => (st, [])
  | d :: ds =>
    let r1 := stdoutStepBytes st d
    let r2 := runStdoutBytes r1.1 ds
    (r2.1, r1.2 ++ r2.2)

/-! ## Transcript reader: ClaudeSessionManager -/

/-- One message of the normalized conversation model (interface
    ClaudeMessage); its optional metadata object is flattened into fields. -/
structure ClaudeMessage where
  id : String
  role : String
  content : String
  timestamp : Int
  metaSessionId : String
  metaRequestId : Option String
  metaToolUseResult : Option Json

/-- One parsed line of a transcript file (interface ClaudeSessionEntry);
    the nested message object is flattened into messageRole and
    messageContent, and the timestamp is its epoch-millisecond value. -/
structure ClaudeSessionEntry where
  type : String
  messageRole : String
  messageContent : Json
  uuid : String
  timestampMs : Int
  sessionId : String
  requestId : Option String
  toolUseResult : Option Json
  cwd : String
  version : String
  gitBranch : Option String

/-- One content block of formatComplexContent. -/
def formatBlock (item : Json) : String :=
  if item.isStrField "type" "text" then tmpl (item.field "text")
  else if item.isStrField "type" "tool_use" then
    "\n\n🔧 **Tool Use:** " ++ tmpl (item.field "name") ++ "\n" ++
      (if jsTruthy (item.field "input") then
        "Parameters: " ++ jsonStringify 0 ((item.field "input").getD .null) ++ "\n"
       else "")
  else
    "\n[" ++ tmpl (item.field "type") ++ "]: " ++ jsonStringify 0 item ++ "\n"

/-- ClaudeSessionManager.formatComplexContent: render list-typed message
    content; non-array content degrades to String(content). -/
def formatComplexContent (content : Json) : String :=
  match content with
  | .arr items => jsTrim (String.join (items.map formatBlock))
  | other => jsStringOf other

/-- Conversion of one user/assistant transcript entry into a
    ClaudeMessage, as performed by the entry loop of parseSessionFile. -/
def entryToMessage (entry : ClaudeSessionEntry) : ClaudeMessage :=
  { id := entry.uuid
    role := entry.messageRole
    content :=
      match entry.messageContent with
      | .str s => s
      | other => formatComplexContent other
    timestamp := entry.timestampMs
    metaSessionId := entry.sessionId
    metaRequestId := entry.requestId
    metaToolUseResult := entry.toolUseResult }

/-- ClaudeSessionManager.determineSessionStatus: pending when the last
    entry is a user entry, completed otherwise. -/
def determineSessionStatus (entries : List ClaudeSessionEntry) : String :=
  match entries.getLast? with
  | some lastMessage =>
    if lastMessage.type = "user" then "pending"
    else if lastMessage.type = "assistant" then "completed"
    else "completed"
  | none => "completed"

/-- ClaudeSessionManager.generateSessionTitle: first user message, first
    50 characters with newlines replaced by spaces and whitespace trimmed,
    plus "..." when the content is longer than 50 characters; a fixed
    placeholder when there is no user message or its content is empty. -/
def generateSessionTitle (messages : List ClaudeMessage) : String :=
  match messages.find? fun m => m.role == "user" with
  | some firstUserMessage =>
    if firstUserMessage.content = "" then "Claude Code Session"
    else
      jsTrim ⟨(firstUserMessage.content.data.take 50).map fun c => if c = '\n' then ' ' else c⟩
        ++ (if 50 < firstUserMessage.content.data.length then "..." else "")
  | none => "Claude Code Session"

/-- The metadata object attached to a ClaudeTask. -/
structure TaskMeta where
  sessionId : String
  cwd : Option String
  version : Option String
  gitBranch : Option String
  projectDir : Option String

/-- One session / task (interface ClaudeTask). -/
structure ClaudeTask where
  id : String
  title : String
  description : String
  status : String
  messages : List ClaudeMessage
  createdAt : Int
  updatedAt : Int
  meta : Option TaskMeta

/-- The predicate selecting transcript entries that become messages. -/
def isConversationEntry (e : ClaudeSessionEntry) : Bool :=
  e.type == "user" || e.type == "assistant"

/-- ClaudeSessionManager.parseSessionFile.  The transcript file is
    modelled as the list of per-line JSON.parse outcomes of its nonempty
    lines: none for a line that fails to parse (skipped), some e for a
    line parsed into a session entry.  Returns none exactly when no line
    parses (the code returns null both for an empty file and for a file
    with zero parseable lines). -/
def parseSessionFile (parsedLines : List (Option ClaudeSessionEntry))
    (sessionId : String) : Option ClaudeTask :=
  match parsedLines.filterMap id with
  | [] => none
  | firstEntry :: rest =>
    let entries := firstEntry :: rest
    let messages := (entries.filter isConversationEntry).map entryToMessage
    some
      { id := sessionId
        title := generateSessionTitle messages
        description := "Claude Code Session - " ++ toString messages.length ++ " messages"
        status := determineSessionStatus entries
        messages := messages
        createdAt := firstEntry.timestampMs
        updatedAt := (entries.getLast (by simp [entries])).timestampMs
        meta := some
          { sessionId := sessionId
            cwd := some firstEntry.cwd
            version := some firstEntry.version
            gitBranch := firstEntry.gitBranch
            projectDir := none } }

/-- ClaudeSessionManager.getProjectKey: replace every "/" of the project
    path with "-", then strip a single leading "-".  Paths are modelled as
    character lists. -/
def getProjectKey (projectPath : List Char) : List Char :=
  match projectPath.map (fun c => if c = '/' then '-' else c) with
  | '-' :: rest => rest
  | other => other

/-- The reverse mapping applied by getAllSessions when tagging a session
    with its originating project: replace every "-" with "/". -/
def projectDirOfKey (key : List Char) : List Char :=
  key.map fun c => if c = '-' then '/' else c

/-! ## Orchestrator: ClaudeCodeManager -/

/-- The deduplication filter of loadClaudeCodeSessions
    (`filter((session, index, arr) => arr.findIndex(s => s.id === session.id) === index)`):
    a session at a given index is kept iff that index is the first index
    in the original list holding its id. -/
def dedupeAux (orig : List ClaudeTask) : Nat → List ClaudeTask → List ClaudeTask
  | _, [] => []
  | idx, t :: ts =>
    if orig.findIdx (fun s => s.id == t.id) = idx then
      t :: dedupeAux orig (idx + 1) ts
    else dedupeAux orig (idx + 1) ts

def dedupeById (l : List ClaudeTask) : List ClaudeTask := dedupeAux l 0 l

/-- The sort comparator `(a, b) => b.updatedAt - a.updatedAt`: a may
    precede b iff its updatedAt is at least b's (descending order). -/
def byUpdatedDesc (a b : ClaudeTask) : Bool := b.updatedAt ≤ a.updatedAt

/-- ClaudeCodeManager.loadClaudeCodeSessions: concatenate the sessions
    loaded from disk with the in-memory tasks, drop duplicate ids keeping
    the first occurrence, and sort by updatedAt descending. -/
def loadClaudeCodeSessions (realSessions tasks : List ClaudeTask) : List ClaudeTask :=
  (dedupeById (realSessions ++ tasks)).mergeSort byUpdatedDesc

/-- The two transports the manager can drive for one streaming request. -/
inductive Transport where
  | direct : Transport
  | cli : Transport
deriving DecidableEq, Repr

/-- ClaudeCodeManager.initialize step 1: useSDK is set to true exactly
    when the SDK initialization promise wins its race against the
    10-second timeout; any failure or timeout leaves CLI-only mode. -/
def initializeUseSDK (probeSucceeded : Bool) : Bool := probeSucceeded

/-- ClaudeCodeManager.sendMessageStreaming transport selection, with the
    runtime fallback of callClaudeSDKQueryAPI: in SDK mode a Direct
    failure disables useSDK and falls back to one CLI attempt whose
    outcome is surfaced; in CLI mode the CLI transport is used directly.
    Returns the new useSDK flag, the transports attempted in order, and
    the surfaced outcome. -/
def selectAndSend (useSDK : Bool)
    (directOutcome cliOutcome : Except String Unit) :
    Bool × List Transport × Except String Unit :=
  if useSDK then
    match directOutcome with
    | .ok _ => (true, [.direct], .ok ())
    | .error _ =>
      match cliOutcome with
      | .ok _ => (false, [.direct, .cli], .ok ())
      | .error e => (false, [.direct, .cli], .error e)
  else
    match cliOutcome with
    | .ok _ => (useSDK, [.cli], .ok ())
    | .error e => (useSDK, [.cli], .error e)

/-! ## Helper lemmas -/

theorem Json.isStrField_iff {j : Json} {k v : String} :
    j.isStrField k v = true ↔ j.field k = some (.str v) := by
  unfold Json.isStrField
  cases h : j.field k with
  | none => simp
  | some val => cases val <;> simp [beq_iff_eq]

/-- Recognizer for onComplete calls. -/
def isCompleteCall : SinkCall → Bool
  | .onComplete _ => true
  | _ => false

/-- Recognizer for onError calls. -/
def isErrorCall : SinkCall → Bool
  | .onError _ => true
  | _ => false

/-- The concrete success result line of the stream-json protocol. -/
def resultDoneLine : String :=
  "\x7b\"type\":\"result\",\"subtype\":\"success\",\"result\":\"Done.\"\x7d"

/-- The JSON object that JSON.parse produces from resultDoneLine. -/
def resultDoneJson : Json :=
  .obj [("type", .str "result"), ("subtype", .str "success"), ("result", .str "Done.")]

/-! ## C1 -/

/-- C1 (amended): every complete stream line parsing as a JSON object
    whose type field is "result" (any subtype, the success subtype
    included) produces exactly one progress event whose content is
    "Completed in <duration_ms>ms", and contributes nothing to the
    accumulated text response; no text event carrying the result value and
    no completion is emitted for the line. -/
theorem C1_result_line_progress (line : String) (data : Json)
    (hp : jsonParse line = some data)
    (ht : data.isStrField "type" "result" = true) :
    processStreamingLine line =
      ([.onMessage "progress" ("Completed in " ++ tmpl (data.field "duration_ms") ++ "ms")],
       []) := by
  have hf : data.field "type" = some (.str "result") := Json.isStrField_iff.mp ht
  unfold processStreamingLine
  rw [hp]
  simp [Json.isStrField, hf]

/-- C1 witness: the scenario line of the specification takes the result
    branch, and its duration field is undefined. -/
theorem C1_result_line_progress_witness :
    jsonParse resultDoneLine = some resultDoneJson ∧
    processStreamingLine resultDoneLine =
      ([.onMessage "progress" "Completed in undefinedms"], []) :=
  ⟨rfl, (C1_result_line_progress resultDoneLine resultDoneJson rfl (by decide)).trans rfl⟩

/-- C1 counterexample: feeding the line
    `{"type":"result","subtype":"success","result":"Done."}` followed by a
    zero-exit close produces a progress event and two "no response"
    errors — not the event sequence [text("Done."), complete]; no text
    event carrying "Done." and no completion is delivered at all. -/
theorem C1_counterexample :
    runStream [.stdout (resultDoneLine ++ "\n"), .close (some 0)] =
      [.onMessage "progress" "Completed in undefinedms",
       .onError noResponseMsg, .onError noResponseMsg] ∧
    SinkCall.onMessage "text" "Done." ∉
      runStream [.stdout (resultDoneLine ++ "\n"), .close (some 0)] ∧
    (runStream [.stdout (resultDoneLine ++ "\n"), .close (some 0)]).all
      (fun ev => !isCompleteCall ev) = true :=
  ⟨by decide, by decide, by decide⟩

/-! ## C4 -/

/-- C4 (amended): when the subprocess exits with a nonzero exit code the
    sink receives two onError calls carrying the exit-code message — one
    from the close handler, one from the catch block of
    sendMessageStreaming when the rejected promise surfaces — and no
    onComplete call. -/
theorem C4_exit_nonzero_double_error (c : Int) (hc : c ≠ 0) :
    runStream [.close (some c)] =
      [.onError (closeFailMsg (some c)), .onError (closeFailMsg (some c))] ∧
    (runStream [.close (some c)]).all (fun ev => !isCompleteCall ev) = true := by
  have h0 : ¬ ((some c : Option Int) = some 0) := by simp [hc]
  refine ⟨?_, ?_⟩ <;>
    simp [runStream, runStreamFrom, streamStep, settleReject, initStreamState, h0,
      isCompleteCall]

/-- C4 witness: the exit-code-1 scenario. -/
theorem C4_exit_nonzero_double_error_witness :
    runStream [.close (some 1)] =
      [.onError (closeFailMsg (some 1)), .onError (closeFailMsg (some 1))] ∧
    (runStream [.close (some 1)]).all (fun ev => !isCompleteCall ev) = true :=
  C4_exit_nonzero_double_error 1 (by decide)

/-- C4 counterexample: on exit code 1 the sink receives two onError calls,
    not exactly one. -/
theorem C4_counterexample :
    runStream [.close (some 1)] =
      [.onError "Claude CLI failed with code 1", .onError "Claude CLI failed with code 1"] ∧
    (runStream [.close (some 1)]).countP isErrorCall = 2 :=
  ⟨by decide, by decide⟩

/-! ## C6 -/

theorem applyLine_snd_state (st st' : StreamState) (l : List Char) :
    (applyLine st l).2 = (applyLine st' l).2 := by
  unfold applyLine
  by_cases h : jsTrim ⟨l⟩ = "" <;> simp [h]

theorem applyLines_snd_state (ls : List (List Char)) :
    ∀ st st', (applyLines st ls).2 = (applyLines st' ls).2 := by
  induction ls with
  | nil => intro st st'; rfl
  | cons l ls ih =>
    intro st st'
    simp only [applyLines]
    rw [applyLine_snd_state st st' l, ih (applyLine st l).1 (applyLine st' l).1]

theorem stdoutStep_snd_eq (st st' : StreamState) (chunk : String)
    (h : st.buffer = st'.buffer) :
    (stdoutStep st chunk).2 = (stdoutStep st' chunk).2 := by
  unfold stdoutStep
  simp only [h]
  exact applyLines_snd_state _ _ _

/-- C6 (amended): stream output arriving after a terminal event is not
    discarded: after the timeout has fired its error (settling the
    request), a subsequent stdout chunk is parsed and its events are
    delivered to the sink exactly as they would have been before. -/
theorem C6_post_terminal_not_discarded (st : StreamState) (chunk : String)
    (h : st.closed = false) :
    (runStreamFrom st [.timeout, .stdout chunk]).2 =
      (if st.settled then [SinkCall.onError timeoutMsg]
       else [SinkCall.onError timeoutMsg, SinkCall.onError timeoutMsg])
        ++ (stdoutStep st chunk).2 := by
  by_cases hs : st.settled
  · simp [runStreamFrom, streamStep, settleReject, h, hs]
  · simp [runStreamFrom, streamStep, settleReject, h, hs]
    exact stdoutStep_snd_eq _ _ _ rfl

/-- C6 witness: from a fresh request state, a timeout followed by a stdout
    chunk yields the two timeout errors followed by the chunk's events. -/
theorem C6_post_terminal_not_discarded_witness :
    (runStreamFrom initStreamState [.timeout, .stdout "hello\n"]).2 =
      (if initStreamState.settled then [SinkCall.onError timeoutMsg]
       else [SinkCall.onError timeoutMsg, SinkCall.onError timeoutMsg])
        ++ (stdoutStep initStreamState "hello\n").2 :=
  C6_post_terminal_not_discarded initStreamState "hello\n" rfl

/-- C6 counterexample: the line "hello" arriving after the timeout's
    error event is still emitted as a text event rather than discarded. -/
theorem C6_counterexample :
    runStream [.timeout, .stdout "hello\n"] =
      [.onError timeoutMsg, .onError timeoutMsg, .onMessage "text" "hello\n"] ∧
    SinkCall.onMessage "text" "hello\n" ∈ runStream [.timeout, .stdout "hello\n"] :=
  ⟨by decide, by decide⟩

/-! ## C7 -/

/-- C7: a close with exit code zero in a state where no data was received
    or the accumulated text response is blank delivers the "no response"
    error (twice when this is the first settlement, through the rejected
    promise reaching the outer catch) and never calls onComplete. -/
theorem C7_no_data_error (st : StreamState)
    (h : st.hasReceivedData = false ∨ jsTrim st.fullResponse = "") :
    (streamStep st (.close (some 0))).2 =
      (if st.settled then [SinkCall.onError noResponseMsg]
       else [SinkCall.onError noResponseMsg, SinkCall.onError noResponseMsg]) ∧
    (streamStep st (.close (some 0))).2.all (fun ev => !isCompleteCall ev) = true := by
  have hstep : streamStep st (.close (some 0)) =
      settleReject { st with closed := true } noResponseMsg := by
    simp only [streamStep]
    rw [if_pos trivial, if_pos h]
  rw [hstep]
  unfold settleReject
  by_cases hs : st.settled <;> simp [hs, isCompleteCall]

/-- C7 witness: a zero-exit close on a fresh state (no data received). -/
theorem C7_no_data_error_witness :
    (streamStep initStreamState (.close (some 0))).2 =
      (if initStreamState.settled then [SinkCall.onError noResponseMsg]
       else [SinkCall.onError noResponseMsg, SinkCall.onError noResponseMsg]) ∧
    (streamStep initStreamState (.close (some 0))).2.all
      (fun ev => !isCompleteCall ev) = true :=
  C7_no_data_error initStreamState (Or.inl rfl)

/-! ## C8 -/

/-- C8: a complete nonblank line that does not parse as JSON produces
    exactly one event whose content is the line with a newline
    re-appended, classified as thinking exactly when the heuristic fires:
    some fixed indicator phrase occurs case-insensitively, or the line
    starts with the thinking emoji, or it contains an ellipsis. -/
theorem C8_nonjson_line (line : String)
    (hp : jsonParse line = none) (ht : ¬ jsTrim line = "") :
    processStreamingLine line =
      ([.onMessage (if isThinkingContent line then "thinking" else "text") (line ++ "\n")],
       [(line ++ "\n", if isThinkingContent line then "thinking" else "text")]) ∧
    (isThinkingContent line = true ↔
      ((∃ ind ∈ thinkingIndicators, strIncludes (lowerStr line) (lowerStr ind) = true)
        ∨ strStartsWith line "🤔" = true ∨ strIncludes line "..." = true)) := by
  constructor
  · unfold processStreamingLine
    rw [hp]
    simp [ht]
  · simp [isThinkingContent, List.any_eq_true, or_assoc]

/-- C8 witness: the specification scenario line is classified as thinking
    and emitted with a trailing newline. -/
theorem C8_nonjson_line_witness :
    processStreamingLine "Let me check the file first" =
      ([.onMessage (if isThinkingContent "Let me check the file first" then "thinking" else "text")
          ("Let me check the file first" ++ "\n")],
       [("Let me check the file first" ++ "\n",
         if isThinkingContent "Let me check the file first" then "thinking" else "text")]) ∧
    isThinkingContent "Let me check the file first" = true :=
  ⟨(C8_nonjson_line "Let me check the file first" rfl (by decide)).1, by decide⟩

/-! ## C10 -/

/-- C10: the project-key derivation is not injective — the distinct
    absolute paths /a/b and /a-b share a key — and for every path that
    contains a "-" the reverse mapping (replace "-" with "/") applied to
    the key does not recover the path. -/
theorem C10_project_key_not_injective (p : List Char) (h : '-' ∈ p) :
    (getProjectKey ['/', 'a', '/', 'b'] = getProjectKey ['/', 'a', '-', 'b'] ∧
      (['/', 'a', '/', 'b'] : List Char) ≠ ['/', 'a', '-', 'b']) ∧
    projectDirOfKey (getProjectKey p) ≠ p := by
  refine ⟨⟨by decide, by decide⟩, ?_⟩
  intro heq
  have hno : '-' ∉ projectDirOfKey (getProjectKey p) := by
    intro hmem
    unfold projectDirOfKey at hmem
    rcases List.mem_map.mp hmem with ⟨c, -, hc⟩
    by_cases h' : c = '-'
    · rw [if_pos h'] at hc
      exact absurd hc (by decide)
    · rw [if_neg h'] at hc
      exact h' hc
  exact hno (by rw [heq]; exact h)

/-- C10 witness: the reverse mapping fails on the path /a-b. -/
theorem C10_project_key_not_injective_witness :
    projectDirOfKey (getProjectKey ['/', 'a', '-', 'b']) ≠ ['/', 'a', '-', 'b'] :=
  (C10_project_key_not_injective ['/', 'a', '-', 'b'] (by decide)).2

/-! ## C5 -/

/-- C5: after a failed (or timed-out) probe the manager is CLI-only —
    every send uses the subprocess transport alone and never re-attempts
    Direct, and the mode stays CLI-only; and on a runtime Direct failure
    after a successful probe the manager demotes itself to CLI-only,
    retries the same request via the subprocess transport exactly once,
    and surfaces exactly the outcome of that retry. -/
theorem C5_selector_fallback (directOutcome cliOutcome : Except String Unit) (e : String) :
    ((selectAndSend (initializeUseSDK false) directOutcome cliOutcome).2.1 = [Transport.cli] ∧
     (selectAndSend (initializeUseSDK false) directOutcome cliOutcome).1 = false ∧
     Transport.direct ∉ (selectAndSend (initializeUseSDK false) directOutcome cliOutcome).2.1) ∧
    ((selectAndSend true (.error e) cliOutcome).1 = false ∧
     (selectAndSend true (.error e) cliOutcome).2.1 = [Transport.direct, Transport.cli] ∧
     (selectAndSend true (.error e) cliOutcome).2.1.count Transport.cli = 1 ∧
     (selectAndSend true (.error e) cliOutcome).2.2 = cliOutcome) := by
  cases cliOutcome <;> cases directOutcome <;>
    simp [selectAndSend, initializeUseSDK, List.count_cons]

/-! ## C2: buffering machinery -/

theorem splitNl_ne_rel (a b : List Char) :
    splitNl (a ++ b) =
      ((splitNl a).1 ++ (splitNl ((splitNl a).2 ++ b)).1,
       (splitNl ((splitNl a).2 ++ b)).2) := by
  induction a with
  | nil => simp [splitNl]
  | cons c cs ih =>
    by_cases hc : c = '\n'
    · subst hc
      simp [splitNl, ih]
    · rcases hA : (splitNl cs).1 with _ | ⟨a1, as⟩
      · rcases hB : (splitNl ((splitNl cs).2 ++ b)).1 with _ | ⟨b1, bs⟩
        · simp [splitNl, ih, hA, hB, hc]
        · simp [splitNl, ih, hA, hB, hc]
      · simp [splitNl, ih, hA, hc]

/-- The events one complete line contributes. -/
def lineEvents (l : List Char) : List SinkCall :=
  if jsTrim ⟨l⟩ = "" then [] else (processStreamingLine (jsTrim ⟨l⟩)).1

/-- The text-classified collector content one complete line appends to the
    accumulated response. -/
def lineAdd (l : List Char) : String :=
  if jsTrim ⟨l⟩ = "" then ""
  else String.join (((processStreamingLine (jsTrim ⟨l⟩)).2.filter
    fun p => p.2 == "text").map Prod.fst)

def linesEvents : List (List Char) → List SinkCall
  | [] => []
  | l :: ls => lineEvents l ++ linesEvents ls

def linesAdd : List (List Char) → String
  | [] => ""
  | l :: ls => lineAdd l ++ linesAdd ls

theorem linesEvents_append (x y : List (List Char)) :
    linesEvents (x ++ y) = linesEvents x ++ linesEvents y := by
  induction x with
  | nil => rfl
  | cons l ls ih => simp [linesEvents, ih]

theorem linesAdd_append (x y : List (List Char)) :
    linesAdd (x ++ y) = linesAdd x ++ linesAdd y := by
  induction x with
  | nil => simp [linesAdd]
  | cons l ls ih => simp [linesAdd, ih, String.append_assoc]

theorem applyLine_decomp (st : StreamState) (l : List Char) :
    applyLine st l =
      ({ st with fullResponse := st.fullResponse ++ lineAdd l }, lineEvents l) := by
  unfold applyLine lineAdd lineEvents
  by_cases h : jsTrim ⟨l⟩ = "" <;> simp [h]

theorem applyLines_decomp (ls : List (List Char)) : ∀ st : StreamState,
    applyLines st ls =
      ({ st with fullResponse := st.fullResponse ++ linesAdd ls }, linesEvents ls) := by
  induction ls with
  | nil => intro st; simp [applyLines, linesAdd, linesEvents]
  | cons l ls ih =>
    intro st
    simp [applyLines, applyLine_decomp, ih, linesAdd, linesEvents, String.append_assoc]

theorem stdoutStep_decomp (st : StreamState) (chunk : String) :
    stdoutStep st chunk =
      ({ st with buffer := (splitNl (st.buffer ++ chunk.data)).2,
                 fullResponse :=
                   st.fullResponse ++ linesAdd (splitNl (st.buffer ++ chunk.data)).1,
                 hasReceivedData := true },
       linesEvents (splitNl (st.buffer ++ chunk.data)).1) := by
  unfold stdoutStep
  rw [applyLines_decomp]

theorem stdoutStep_comp (st : StreamState) (a b : String) :
    stdoutStep st (a ++ b) =
      ((stdoutStep (stdoutStep st a).1 b).1,
       (stdoutStep st a).2 ++ (stdoutStep (stdoutStep st a).1 b).2) := by
  rw [stdoutStep_decomp st (a ++ b), stdoutStep_decomp st a, stdoutStep_decomp _ b]
  simp only [String.data_append, ← List.append_assoc, splitNl_ne_rel (st.buffer ++ a.data)]
  simp [linesAdd_append, linesEvents_append, String.append_assoc]

theorem stringChunkingAux (c : String) (cs : List String) : ∀ st : StreamState,
    runStreamFrom st ((c :: cs).map ProcEv.stdout) =
      runStreamFrom st [ProcEv.stdout (concatStrings (c :: cs))] := by
  induction cs generalizing c with
  | nil => intro st; rfl
  | cons d ds ih =>
    intro st
    show runStreamFrom st (.stdout c :: (d :: ds).map ProcEv.stdout) = _
    have lhs :
        runStreamFrom st (.stdout c :: (d :: ds).map ProcEv.stdout) =
          ((runStreamFrom (stdoutStep st c).1 ((d :: ds).map ProcEv.stdout)).1,
           (stdoutStep st c).2 ++
             (runStreamFrom (stdoutStep st c).1 ((d :: ds).map ProcEv.stdout)).2) := rfl
    rw [lhs, ih d (stdoutStep st c).1]
    have rhs : ∀ (s : StreamState) (x : String),
        runStreamFrom s [ProcEv.stdout x] = ((stdoutStep s x).1, (stdoutStep s x).2) := by
      intro s x
      simp [runStreamFrom, streamStep]
    rw [rhs, rhs]
    have hconcat : concatStrings (c :: d :: ds) = c ++ concatStrings (d :: ds) := rfl
    rw [hconcat, stdoutStep_comp st c (concatStrings (d :: ds))]

/-- Chunking invariance of the string-level handler: delivering decoded
    chunk strings one at a time equals delivering their concatenation as
    one chunk. -/
theorem stringChunking_invariance (st : StreamState) (chunks : List String)
    (h : chunks ≠ []) :
    runStreamFrom st (chunks.map ProcEv.stdout) =
      runStreamFrom st [ProcEv.stdout (concatStrings chunks)] := by
  match chunks, h with
  | c :: cs, _ => exact stringChunkingAux c cs st

/-! ## C9: deduplication machinery -/

/-- First-occurrence deduplication in recursive form, used to reason about
    the index-based filter of loadClaudeCodeSessions. -/
def keepFirsts : List ClaudeTask → List ClaudeTask
  | [] => []
  | t :: ts => t :: keepFirsts (ts.filter fun s => !(s.id == t.id))
termination_by l => l.length
decreasing_by
  simp_wf
  exact Nat.lt_succ_of_le (List.length_filter_le _ _)

theorem beq_str_comm (a b : String) : (a == b) = (b == a) := by
  by_cases h : a = b
  · simp [h]
  · have h' : ¬ b = a := fun hh => h hh.symm
    simp [beq_eq_false_iff_ne, h, h']

theorem dedupeAux_eq_keepFirsts (rest : List ClaudeTask) : ∀ pre : List ClaudeTask,
    dedupeAux (pre ++ rest) pre.length rest =
      keepFirsts (rest.filter fun s => pre.all fun q => !(q.id == s.id)) := by
  induction rest with
  | nil => intro pre; simp [dedupeAux, keepFirsts]
  | cons t ts ih =>
    intro pre
    have hfind : (pre ++ t :: ts).findIdx (fun s => s.id == t.id) =
        (if (pre.findIdx fun s => s.id == t.id) < pre.length
         then pre.findIdx fun s => s.id == t.id
         else pre.length) := by
      rw [List.findIdx_append]
      have h0 : List.findIdx (fun s => s.id == t.id) (t :: ts) = 0 := by
        simp [List.findIdx_cons]
      rw [h0]
      simp
    have horig : pre ++ t :: ts = (pre ++ [t]) ++ ts := by simp
    have hlen : pre.length + 1 = (pre ++ [t]).length := by simp
    by_cases hall : (pre.all fun q => !(q.id == t.id)) = true
    · have hnolt : ¬ ((pre.findIdx fun s => s.id == t.id) < pre.length) := by
        rw [List.findIdx_lt_length]
        rintro ⟨x, hx, hpx⟩
        have hx' := List.all_eq_true.mp hall x hx
        rw [hpx] at hx'
        exact absurd hx' (by decide)
      have hcond : (pre ++ t :: ts).findIdx (fun s => s.id == t.id) = pre.length := by
        rw [hfind, if_neg hnolt]
      have hstep : dedupeAux (pre ++ t :: ts) pre.length (t :: ts) =
          t :: dedupeAux (pre ++ t :: ts) (pre.length + 1) ts := by
        simp only [dedupeAux]
        rw [if_pos hcond]
      rw [hstep, horig, hlen, ih (pre ++ [t])]
      rw [List.filter_cons, if_pos hall]
      rw [keepFirsts, List.filter_filter]
      have hpt : ∀ x : ClaudeTask,
          ((pre ++ [t]).all fun q => !(q.id == x.id)) =
            ((!(x.id == t.id)) && (pre.all fun q => !(q.id == x.id))) := by
        intro x
        rw [List.all_append]
        simp [beq_str_comm t.id x.id, Bool.and_comm]
      have : (fun x : ClaudeTask => (pre ++ [t]).all fun q => !(q.id == x.id)) =
          (fun x : ClaudeTask => (!(x.id == t.id)) && (pre.all fun q => !(q.id == x.id))) :=
        funext hpt
      rw [this]
    · have hex : ∃ x ∈ pre, (x.id == t.id) = true := by
        have hfalse : (pre.all fun q => !(q.id == t.id)) = false :=
          Bool.eq_false_iff.mpr hall
        obtain ⟨x, hx, hpx⟩ := List.all_eq_false.mp hfalse
        exact ⟨x, hx, by simpa using hpx⟩
      have hlt : (pre.findIdx fun s => s.id == t.id) < pre.length := by
        rw [List.findIdx_lt_length]
        exact hex
      have hcond : ¬ ((pre ++ t :: ts).findIdx (fun s => s.id == t.id) = pre.length) := by
        rw [hfind, if_pos hlt]
        exact Nat.ne_of_lt hlt
      have hstep : dedupeAux (pre ++ t :: ts) pre.length (t :: ts) =
          dedupeAux (pre ++ t :: ts) (pre.length + 1) ts := by
        simp only [dedupeAux]
        rw [if_neg hcond]
      rw [hstep, horig, hlen, ih (pre ++ [t])]
      rw [List.filter_cons, if_neg (by simpa using hall)]
      congr 1
      apply List.filter_congr
      intro s hs
      rw [List.all_append]
      obtain ⟨x, hx, hxid⟩ := hex
      by_cases hst : (t.id == s.id) = true
      · have hts : t.id = s.id := by simpa using hst
        have hxs : (x.id == s.id) = true := by
          have : x.id = t.id := by simpa using hxid
          simp [this, hts]
        have hpre_false : (pre.all fun q => !(q.id == s.id)) = false := by
          rw [List.all_eq_false]
          exact ⟨x, hx, by simp [hxs]⟩
        simp [hpre_false]
      · have hst' : (t.id == s.id) = false := Bool.eq_false_iff.mpr hst
        simp [hst']

theorem dedupeById_eq_keepFirsts (l : List ClaudeTask) :
    dedupeById l = keepFirsts l := by
  have h := dedupeAux_eq_keepFirsts l []
  simpa [dedupeById, List.all_nil, List.filter_true] using h

theorem mem_of_mem_keepFirsts : ∀ (l : List ClaudeTask) (t : ClaudeTask),
    t ∈ keepFirsts l → t ∈ l := by
  intro l
  induction l using keepFirsts.induct with
  | case1 => intro t h; simp [keepFirsts] at h
  | case2 x ts ih =>
    intro t h
    rw [keepFirsts] at h
    rcases List.mem_cons.mp h with h | h
    · exact h ▸ List.mem_cons_self _ _
    · exact List.mem_cons_of_mem _ (List.mem_of_mem_filter (ih _ h))

theorem keepFirsts_pairwise : ∀ l : List ClaudeTask,
    (keepFirsts l).Pairwise fun a b => a.id ≠ b.id := by
  intro l
  induction l using keepFirsts.induct with
  | case1 => simp [keepFirsts]
  | case2 x ts ih =>
    rw [keepFirsts]
    refine List.Pairwise.cons ?_ ih
    intro u hu
    have hu' : u ∈ ts.filter fun s => !(s.id == x.id) := mem_of_mem_keepFirsts _ u hu
    have hp := List.of_mem_filter hu'
    simp only [Bool.not_eq_true', beq_eq_false_iff_ne] at hp
    exact fun hxu => hp hxu.symm

theorem keepFirsts_find : ∀ (l : List ClaudeTask) (t : ClaudeTask),
    t ∈ keepFirsts l → l.find? (fun s => s.id == t.id) = some t := by
  intro l
  induction l using keepFirsts.induct with
  | case1 => intro t h; simp [keepFirsts] at h
  | case2 x ts ih =>
    intro t h
    rw [keepFirsts] at h
    rcases List.mem_cons.mp h with h | h
    · subst h
      simp [List.find?_cons]
    · have hfil : t ∈ ts.filter fun s => !(s.id == x.id) := mem_of_mem_keepFirsts _ t h
      have hne : (t.id == x.id) = false := by
        have hp := List.of_mem_filter hfil
        simpa using hp
      have hxt : (x.id == t.id) = false := by rw [beq_str_comm]; exact hne
      rw [List.find?_cons, hxt]
      have ihres := ih t h
      rw [List.find?_filter] at ihres
      have hfun : (fun a : ClaudeTask =>
          decide ((!(a.id == x.id)) = true ∧ (a.id == t.id) = true)) =
            fun s : ClaudeTask => s.id == t.id := by
        funext a
        by_cases ha : (a.id == t.id) = true
        · have hat : a.id = t.id := by simpa using ha
          have hax : (!(a.id == x.id)) = true := by
            rw [Bool.not_eq_true', beq_eq_false_iff_ne, hat]
            exact beq_eq_false_iff_ne.mp hne
          simp [ha, hax]
        · have ha' : (a.id == t.id) = false := Bool.eq_false_iff.mpr ha
          simp [ha']
      rw [hfun] at ihres
      exact ihres

theorem keepFirsts_cover : ∀ (l : List ClaudeTask) (s : ClaudeTask), s ∈ l →
    ∃ t ∈ keepFirsts l, t.id = s.id := by
  intro l
  induction l using keepFirsts.induct with
  | case1 => intro s h; simp at h
  | case2 x ts ih =>
    intro s h
    rcases List.mem_cons.mp h with h | h
    · exact ⟨x, by rw [keepFirsts]; exact List.mem_cons_self _ _, by rw [h]⟩
    · by_cases hid : (s.id == x.id) = true
      · refine ⟨x, by rw [keepFirsts]; exact List.mem_cons_self _ _, ?_⟩
        have : s.id = x.id := by simpa using hid
        exact this.symm
      · have hfil : s ∈ ts.filter fun q => !(q.id == x.id) := by
          rw [List.mem_filter]
          refine ⟨h, ?_⟩
          rw [Bool.not_eq_true']
          exact Bool.eq_false_iff.mpr hid
        obtain ⟨t, ht, hts⟩ := ih s hfil
        exact ⟨t, by rw [keepFirsts]; exact List.mem_cons_of_mem _ ht, hts⟩

/-! ## C9 -/

/-- C9: merging the disk-loaded sessions with the in-memory tasks yields a
    list in which each id occurs at most once, every element is the first
    occurrence of its id in the concatenated disk-then-memory list, every
    input id survives, and the list is sorted by updatedAt descending. -/
theorem C9_merge_dedupe_sort (realSessions tasks : List ClaudeTask) :
    (loadClaudeCodeSessions realSessions tasks).Pairwise (fun a b => a.id ≠ b.id) ∧
    (∀ t ∈ loadClaudeCodeSessions realSessions tasks,
      (realSessions ++ tasks).find? (fun s => s.id == t.id) = some t) ∧
    (∀ s ∈ realSessions ++ tasks,
      ∃ t ∈ loadClaudeCodeSessions realSessions tasks, t.id = s.id) ∧
    (loadClaudeCodeSessions realSessions tasks).Pairwise
      (fun a b => b.updatedAt ≤ a.updatedAt) := by
  have hperm : (loadClaudeCodeSessions realSessions tasks).Perm
      (dedupeById (realSessions ++ tasks)) := List.mergeSort_perm _ _
  have hkf : dedupeById (realSessions ++ tasks) = keepFirsts (realSessions ++ tasks) :=
    dedupeById_eq_keepFirsts _
  refine ⟨?_, ?_, ?_, ?_⟩
  · refine (hperm.pairwise_iff fun h => h.symm).mpr ?_
    rw [hkf]
    exact keepFirsts_pairwise _
  · intro t ht
    have hmem : t ∈ dedupeById (realSessions ++ tasks) := hperm.mem_iff.mp ht
    rw [hkf] at hmem
    exact keepFirsts_find _ t hmem
  · intro s hs
    obtain ⟨t, ht, hid⟩ := keepFirsts_cover (realSessions ++ tasks) s hs
    refine ⟨t, ?_, hid⟩
    rw [← hkf] at ht
    exact hperm.mem_iff.mpr ht
  · have htrans : ∀ (a b c : ClaudeTask), byUpdatedDesc a b = true →
        byUpdatedDesc b c = true → byUpdatedDesc a c = true := by
      intro a b c hab hbc
      simp only [byUpdatedDesc, decide_eq_true_eq] at hab hbc ⊢
      exact le_trans hbc hab
    have htotal : ∀ (a b : ClaudeTask), (byUpdatedDesc a b || byUpdatedDesc b a) = true := by
      intro a b
      simp only [byUpdatedDesc, Bool.or_eq_true, decide_eq_true_eq]
      exact Int.le_total b.updatedAt a.updatedAt
    have hp := List.sorted_mergeSort htrans htotal (dedupeById (realSessions ++ tasks))
    refine List.Pairwise.imp ?_ hp
    intro a b h
    simpa [byUpdatedDesc, decide_eq_true_eq] using h

/-- A disk session and an in-memory task sharing an id. -/
def sampleTaskA : ClaudeTask :=
  { id := "s1", title := "A", description := "", status := "completed",
    messages := [], createdAt := 0, updatedAt := 5, meta := none }

def sampleTaskB : ClaudeTask :=
  { id := "s1", title := "B", description := "", status := "pending",
    messages := [], createdAt := 1, updatedAt := 9, meta := none }

/-- C9 witness: merging two sessions that share an id keeps exactly the
    first occurrence, which is the find?-first element of the
    concatenated list. -/
theorem C9_merge_dedupe_sort_witness :
    ([sampleTaskA, sampleTaskB].find? fun s => s.id == sampleTaskA.id) = some sampleTaskA := by
  have h := (C9_merge_dedupe_sort [sampleTaskA] [sampleTaskB]).2.1
  have hload : loadClaudeCodeSessions [sampleTaskA] [sampleTaskB] = [sampleTaskA] := by
    show (dedupeById ([sampleTaskA] ++ [sampleTaskB])).mergeSort byUpdatedDesc = _
    have hd : dedupeById ([sampleTaskA] ++ [sampleTaskB]) = [sampleTaskA] := rfl
    rw [hd, List.mergeSort_singleton]
  have hmem : sampleTaskA ∈ loadClaudeCodeSessions [sampleTaskA] [sampleTaskB] := by
    rw [hload]
    exact List.mem_cons_self _ _
  exact h sampleTaskA hmem

/-! ## C3 -/

/-- A transcript entry whose user message contains a newline inside its
    first 50 characters. -/
def sampleUserEntry : ClaudeSessionEntry :=
  { type := "user", messageRole := "user", messageContent := .str "a\nb",
    uuid := "u1", timestampMs := 0, sessionId := "sid", requestId := none,
    toolUseResult := none, cwd := "/w", version := "1.0", gitBranch := none }

/-- C3 counterexample: for the single-entry file whose first user message
    is "a\nb", the produced title is "a b" — the newline is replaced by a
    space — and not the first 50 characters "a\nb" the claim states. -/
theorem C3_counterexample :
    (parseSessionFile [some sampleUserEntry] "sid").map (fun t => t.title) = some "a b" ∧
    some "a b" ≠ some ("a\nb" : String) := by
  exact ⟨by decide, by decide⟩

/-- C3 (amended): a transcript file with zero parseable lines yields no
    Session and no error; a file with at least one parseable entry yields
    a Session whose message count is the number of entries typed user or
    assistant, whose status is pending exactly when the last entry is a
    user entry, and whose title is derived from the first user-role
    message among the kept entries: its first 50 characters with newlines
    replaced by spaces and surrounding whitespace trimmed, plus "..."
    exactly when the content is longer than 50 characters (a fixed
    placeholder when there is no user message or its content is empty). -/
theorem C3_parse_characterization (parsedLines : List (Option ClaudeSessionEntry))
    (sid : String) :
    (parsedLines.filterMap id = [] → parseSessionFile parsedLines sid = none) ∧
    (∀ e es, parsedLines.filterMap id = e :: es →
      ∃ task, parseSessionFile parsedLines sid = some task ∧
        task.messages.length = ((e :: es).filter isConversationEntry).length ∧
        (task.status = "pending" ↔ ((e :: es).getLast (by simp)).type = "user") ∧
        task.title =
          (match ((e :: es).filter isConversationEntry).find?
              (fun x => x.messageRole == "user") with
           | some x =>
             (if (match x.messageContent with
                  | .str s => s
                  | other => formatComplexContent other) = ""
              then "Claude Code Session"
              else
                jsTrim ⟨((match x.messageContent with
                          | .str s => s
                          | other => formatComplexContent other).data.take 50).map
                    fun ch => if ch = '\n' then ' ' else ch⟩
                  ++ (if 50 < (match x.messageContent with
                               | .str s => s
                               | other => formatComplexContent other).data.length
                      then "..." else ""))
           | none => "Claude Code Session")) := by
  constructor
  · intro h
    simp [parseSessionFile, h]
  · intro e es h
    simp only [parseSessionFile, h]
    refine ⟨_, rfl, ?_, ?_, ?_⟩
    · simp
    · have hne : (e :: es) ≠ [] := by simp
      have hgl : (e :: es).getLast? = some ((e :: es).getLast hne) :=
        List.getLast?_eq_getLast _ hne
      unfold determineSessionStatus
      rw [hgl]
      by_cases hu : ((e :: es).getLast hne).type = "user"
      · simp [hu]
      · by_cases ha : ((e :: es).getLast hne).type = "assistant" <;> simp [hu, ha]
    · unfold generateSessionTitle
      rw [List.find?_map]
      have hcomp : ((fun m : ClaudeMessage => m.role == "user") ∘ entryToMessage) =
          fun x : ClaudeSessionEntry => x.messageRole == "user" := rfl
      rw [hcomp]
      cases hf : ((e :: es).filter isConversationEntry).find?
          (fun x => x.messageRole == "user") with
      | none => rfl
      | some x => rfl

/-- C3 witness: the empty file yields no Session, and the single-entry
    file around sampleUserEntry yields a Session whose title evaluates to
    "a b". -/
theorem C3_parse_characterization_witness :
    parseSessionFile [] "sid" = none ∧
    ∃ task, parseSessionFile [some sampleUserEntry] "sid" = some task ∧
      task.title = "a b" := by
  obtain ⟨task, hps, -, -, htitle⟩ :=
    (C3_parse_characterization [some sampleUserEntry] "sid").2 sampleUserEntry [] rfl
  refine ⟨(C3_parse_characterization [] "sid").1 rfl, task, hps, ?_⟩
  rw [htitle]
  decide

/-! ## C2 -/

theorem decodeOne_snd_le (b : Nat) (rest : List Nat) :
    (decodeOne b rest).2.length ≤ rest.length := by
  unfold decodeOne
  repeat' split
  all_goals simp
  all_goals omega

theorem decodeAuxF_fuel : ∀ (fuel1 : Nat) (l : List Nat) (fuel2 : Nat),
    l.length ≤ fuel1 → l.length ≤ fuel2 →
    utf8DecodeReplaceAuxF fuel1 l = utf8DecodeReplaceAuxF fuel2 l := by
  intro fuel1
  induction fuel1 with
  | zero =>
    intro l fuel2 h1 h2
    have hnil : l = [] := by
      cases l with
      | nil => rfl
      | cons b rest => simp at h1
    subst hnil
    cases fuel2 <;> rfl
  | succ f ih =>
    intro l fuel2 h1 h2
    cases l with
    | nil => cases fuel2 <;> rfl
    | cons b rest =>
      cases fuel2 with
      | zero => simp at h2
      | succ f2 =>
        simp only [utf8DecodeReplaceAuxF]
        have hle := decodeOne_snd_le b rest
        simp only [List.length_cons] at h1 h2
        rw [ih (decodeOne b rest).2 f2 (by omega) (by omega)]

/-- Decoding consumes the encoding of one character exactly, for every
    valid Unicode scalar value. -/
theorem decodeAux_encodeChar (c : Char) (rest : List Nat) :
    utf8DecodeReplaceAux (utf8EncodeChar c ++ rest) = c :: utf8DecodeReplaceAux rest := by
  have hv : Nat.isValidChar c.toNat := c.valid
  have hofn : Char.ofNat c.toNat = c := Char.ofNat_toNat c
  simp only [Nat.isValidChar] at hv
  simp only [utf8EncodeChar]
  by_cases h1 : c.toNat < 0x80
  · rw [if_pos h1]
    simp only [List.cons_append, List.nil_append]
    have hd : decodeOne c.toNat rest = (c, rest) := by
      unfold decodeOne
      rw [if_pos h1, hofn]
    simp only [utf8DecodeReplaceAux, List.length_cons, utf8DecodeReplaceAuxF, hd]
  · rw [if_neg h1]
    by_cases h2 : c.toNat < 0x800
    · rw [if_pos h2]
      simp only [List.cons_append, List.nil_append]
      have hd : decodeOne (0xC0 + c.toNat / 64) ((0x80 + c.toNat % 64) :: rest) =
          (c, rest) := by
        simp only [decodeOne]
        rw [if_neg (by omega), if_pos (by omega), if_pos (by omega),
          show (0xC0 + c.toNat / 64 - 0xC0) * 64 + (0x80 + c.toNat % 64 - 0x80) = c.toNat
            from by omega, hofn]
      simp only [utf8DecodeReplaceAux, List.length_cons, utf8DecodeReplaceAuxF, hd]
      rw [decodeAuxF_fuel (rest.length + 1) rest rest.length (by omega) (by omega)]
    · rw [if_neg h2]
      by_cases h3 : c.toNat < 0x10000
      · rw [if_pos h3]
        simp only [List.cons_append, List.nil_append]
        have hd : decodeOne (0xE0 + c.toNat / 4096)
            ((0x80 + c.toNat / 64 % 64) :: (0x80 + c.toNat % 64) :: rest) = (c, rest) := by
          simp only [decodeOne]
          rw [if_neg (by omega), if_neg (by omega), if_pos (by omega),
            if_pos (by split_ifs <;> omega), if_pos (by omega),
            show (0xE0 + c.toNat / 4096 - 0xE0) * 4096 +
                (0x80 + c.toNat / 64 % 64 - 0x80) * 64 + (0x80 + c.toNat % 64 - 0x80) =
                c.toNat from by omega, hofn]
        simp only [utf8DecodeReplaceAux, List.length_cons, utf8DecodeReplaceAuxF, hd]
        rw [decodeAuxF_fuel (rest.length + 1 + 1) rest rest.length (by omega) (by omega)]
      · rw [if_neg h3]
        simp only [List.cons_append, List.nil_append]
        have hd : decodeOne (0xF0 + c.toNat / 0x40000)
            ((0x80 + c.toNat / 4096 % 64) :: (0x80 + c.toNat / 64 % 64) ::
              (0x80 + c.toNat % 64) :: rest) = (c, rest) := by
          simp only [decodeOne]
          rw [if_neg (by omega), if_neg (by omega), if_neg (by omega), if_pos (by omega),
            if_pos (by split_ifs <;> omega), if_pos (by omega), if_pos (by omega),
            show (0xF0 + c.toNat / 0x40000 - 0xF0) * 0x40000 +
                (0x80 + c.toNat / 4096 % 64 - 0x80) * 4096 +
                (0x80 + c.toNat / 64 % 64 - 0x80) * 64 + (0x80 + c.toNat % 64 - 0x80) =
                c.toNat from by omega, hofn]
        simp only [utf8DecodeReplaceAux, List.length_cons, utf8DecodeReplaceAuxF, hd]
        rw [decodeAuxF_fuel (rest.length + 1 + 1 + 1) rest rest.length (by omega) (by omega)]

theorem decodeAux_encodeChars (l : List Char) (rest : List Nat) :
    utf8DecodeReplaceAux (utf8EncodeChars l ++ rest) = l ++ utf8DecodeReplaceAux rest := by
  induction l with
  | nil => rfl
  | cons c cs ih =>
    simp only [utf8EncodeChars, List.append_assoc]
    rw [decodeAux_encodeChar, ih]
    rfl

/-- Buffer.toString() is a left inverse of UTF-8 encoding on whole
    strings: well-formed byte chunks decode losslessly. -/
theorem utf8DecodeReplace_encode (s : String) : utf8DecodeReplace (utf8Encode s) = s := by
  have h := decodeAux_encodeChars s.data []
  rw [List.append_nil] at h
  show (⟨utf8DecodeReplaceAux (utf8EncodeChars s.data)⟩ : String) = s
  rw [h]
  simp [utf8DecodeReplaceAux, utf8DecodeReplaceAuxF]

/-- Delivering well-formed byte chunks is the same as delivering their
    decoded strings. -/
theorem runStdoutBytes_encoded (ss : List String) : ∀ st : StreamState,
    runStdoutBytes st (ss.map utf8Encode) = runStreamFrom st (ss.map ProcEv.stdout) := by
  induction ss with
  | nil => intro st; rfl
  | cons s ss ih =>
    intro st
    simp only [List.map_cons, runStdoutBytes, runStreamFrom]
    have hdec : stdoutStepBytes st (utf8Encode s) = stdoutStep st s := by
      unfold stdoutStepBytes
      rw [utf8DecodeReplace_encode]
    rw [hdec, ih]
    rfl

/-- C2 (amended): the chunking invariance holds for every chunk boundary
    that falls on a character boundary: delivering the UTF-8 encodings of
    any nonempty list of strings to the stdout data handler produces
    exactly the same state and event sequence as delivering the encoding
    of their concatenation as one chunk.  (For boundaries inside a
    multi-byte character the per-chunk Buffer.toString() decode mangles
    the character to U+FFFD and the equality fails.) -/
theorem C2_char_aligned_fragmentation (st : StreamState) (ss : List String)
    (h : ss ≠ []) :
    runStdoutBytes st (ss.map utf8Encode) =
      runStdoutBytes st [utf8Encode (concatStrings ss)] := by
  rw [runStdoutBytes_encoded ss st]
  have h1 : runStdoutBytes st [utf8Encode (concatStrings ss)] =
      runStreamFrom st [ProcEv.stdout (concatStrings ss)] := by
    have h2 := runStdoutBytes_encoded [concatStrings ss] st
    simpa using h2
  rw [h1]
  exact stringChunking_invariance st ss h

/-- C2 witness: the thinking-emoji line delivered as two character-aligned
    byte chunks equals its single-chunk delivery. -/
theorem C2_char_aligned_fragmentation_witness :
    runStdoutBytes initStreamState (["🤔", "\n"].map utf8Encode) =
      runStdoutBytes initStreamState [utf8Encode (concatStrings ["🤔", "\n"])] :=
  C2_char_aligned_fragmentation initStreamState ["🤔", "\n"] (by decide)

/-- C2 counterexample: splitting the byte sequence of the line "🤔\n"
    inside the emoji (bytes F0 9F A4 | 94 0A) makes the per-chunk
    Buffer.toString() decode produce two U+FFFD replacement characters, so
    the split delivery emits a text event "��\n" while the
    single-chunk delivery emits a thinking event "🤔\n" — the event
    sequences differ, refuting invariance under arbitrary byte-boundary
    fragmentation. -/
theorem C2_counterexample :
    (runStdoutBytes initStreamState [[0xF0, 0x9F, 0xA4], [0x94, 0x0A]]).2 =
      [SinkCall.onMessage "text" "��\n"] ∧
    (runStdoutBytes initStreamState [[0xF0, 0x9F, 0xA4, 0x94, 0x0A]]).2 =
      [SinkCall.onMessage "thinking" "🤔\n"] ∧
    runStdoutBytes initStreamState [[0xF0, 0x9F, 0xA4], [0x94, 0x0A]] ≠
      runStdoutBytes initStreamState [[0xF0, 0x9F, 0xA4, 0x94, 0x0A]] :=
  ⟨by decide, by decide, by decide⟩
